import Mathlib

/-!
Verification of the incremental calendar synchronization core of
fetch_matches.py (volleyballworld-calendars).

The embedding models:
- Python datetimes as wall-clock minutes plus an optional timezone offset
  (minutes); a datetime is naive when the offset is absent;
- calendar dates (match-day strings) as integer day numbers;
- a persisted .ics file as either absent, unreadable (malformed), or a
  parsed list of event components;
- the per-competition main-loop pipeline (efficiency check, match-day
  filtering, weekly chunking, fetch, merge, write decision) as a pure
  function parameterized by an API oracle.
-/

/-- Model of a Python datetime: wall-clock time in minutes together with an
optional timezone offset in minutes (tz = none means a naive datetime).
The instant denoted by an aware datetime is wall minus offset. -/
structure PyDateTime where
  wall : Int
  tz : Option Int
deriving DecidableEq, Repr

/-- The UTC instant of an aware datetime (wall-clock minus offset); this is
what Python comparisons between aware datetimes compare. -/
def awareInstant (d : PyDateTime) : Int :=
  d.wall - d.tz.getD 0

/-- Model of dt.astimezone(pytz.utc): an aware datetime is converted to the
equal instant with offset zero; a naive datetime is presumed by Python to be
in the system local timezone (offset localOffset) and converted from there. -/
def astimezoneUtc (localOffset : Int) (d : PyDateTime) : PyDateTime :=
  match d.tz with
  | none => { wall := d.wall - localOffset, tz := some 0 }
  | some o => { wall := d.wall - o, tz := some 0 }

/-- Embeds line 92 of fetch_matches.py: the reader maps each event start
through (dt.astimezone(pytz.utc) if dt.tzinfo is None else dt). -/
def normalizeStart (localOffset : Int) (d : PyDateTime) : PyDateTime :=
  if d.tz = none then astimezoneUtc localOffset d else d

/-- Modelled from the spec words for comparison with normalizeStart: every
start is normalized to UTC, treating naive timestamps as already being UTC. -/
def normalizeStartSpec (d : PyDateTime) : PyDateTime :=
  if d.tz = none then { wall := d.wall, tz := some 0 } else astimezoneUtc 0 d

/-- Model of datetime.date(): the calendar day number of the wall-clock time
(1440 minutes per day). -/
def dateOf (d : PyDateTime) : Int :=
  d.wall / 1440

/-- Model of Python min over a nonempty list of aware datetimes: keeps the
current element unless a later one is strictly smaller (instant order). -/
def pyMinDT : List PyDateTime → Option PyDateTime
  | [] => none
  | x :: xs => some (xs.foldl (fun a b => if awareInstant b < awareInstant a then b else a) x)

/-- Model of Python max over a nonempty list of aware datetimes: keeps the
current element unless a later one is strictly larger (instant order). -/
def pyMaxDT : List PyDateTime → Option PyDateTime
  | [] => none
  | x :: xs => some (xs.foldl (fun a b => if awareInstant a < awareInstant b then b else a) x)

/-- One VEVENT component of a persisted calendar file. The uid is optional
because a component may lack a UID property (the main loop checks for it).
The dtstamp property written by the generator carries no information used by
the reader and is omitted from the model. -/
structure VEvent where
  summary : String
  dtstart : PyDateTime
  dtend : PyDateTime
  location : String
  description : String
  uid : Option String
deriving DecidableEq, Repr

/-- A persisted calendar file, as the reader can encounter it: no file at the
path, a file that cannot be parsed, or a parsed list of VEVENT components. -/
inductive ICSFile where
  | absent
  | malformed
  | parsed (events : List VEvent)
deriving DecidableEq, Repr

/-- Embeds get_calendar_date_range (fetch_matches.py lines 75-97): absent
file and unparsable file both give (None, None); otherwise the event starts
are collected, made timezone-aware via normalizeStart, and the min and max
are returned. -/
def get_calendar_date_range (localOffset : Int) : ICSFile → Option PyDateTime × Option PyDateTime
  | ICSFile.absent => (none, none)
  | ICSFile.malformed => (none, none)
  | ICSFile.parsed events =>
    let eventStarts := events.map VEvent.dtstart
    if eventStarts = [] then (none, none)
    else
      let awareStarts := eventStarts.map (normalizeStart localOffset)
      (pyMinDT awareStarts, pyMaxDT awareStarts)

/-- True exactly when get_calendar_date_range prints its warning (the except
branch at line 96): the file exists but cannot be read or parsed. -/
def readerWarns : ICSFile → Bool
  | ICSFile.malformed => true
  | _ => false

/-- A fully-formed event record as built by process_api_response and as
carried in all_events_for_ics. -/
structure EventData where
  summary : String
  dtstart : PyDateTime
  dtend : PyDateTime
  location : String
  description : String
  uid : String
deriving DecidableEq, Repr

/-- Embeds the existing-calendar read loop (fetch_matches.py lines 380-399):
absent file contributes nothing, a parse failure leaves the list empty, and
a parsed component is kept only when its uid is truthy (present and
nonempty). -/
def readExisting : ICSFile → List EventData
  | ICSFile.absent => []
  | ICSFile.malformed => []
  | ICSFile.parsed comps =>
    comps.filterMap (fun c =>
      match c.uid with
      | none => none
      | some u =>
        if u = "" then none
        else some { summary := c.summary, dtstart := c.dtstart, dtend := c.dtend,
                    location := c.location, description := c.description, uid := u })

/-- Embeds the event merge loop (fetch_matches.py lines 379-404): existing
events come first; each fetched event is appended only when its uid is not
among the uids read from the existing file, and the count of appended events
is returned alongside. The membership test is against the fixed existing_uids
set, which is never extended during the loop. -/
def mergeEvents (existing fetched : List EventData) : List EventData × Nat :=
  let existingUids := existing.map EventData.uid
  fetched.foldl
    (fun acc e => if e.uid ∈ existingUids then acc else (acc.1 ++ [e], acc.2 + 1))
    (existing, 0)

/-- One raw match record of the remote JSON response. matchDateUtc is the
parsed UTC instant in minutes, or none when the matchDateUtc field is
missing; city is none when the city field is missing. -/
structure MatchRecord where
  matchNo : Int
  teamANo : Option Int
  teamBNo : Option Int
  matchDateUtc : Option Int
  city : Option String
deriving DecidableEq, Repr

/-- The JSON body consumed by process_api_response. matchList models the
matches key of the JSON object (none when the key is missing; the word
matches itself is reserved in Lean), and allTeams maps team numbers to names
(later entries overwrite earlier ones when building the dict). -/
structure ApiData where
  matchList : Option (List MatchRecord)
  allTeams : List (Int × String)
deriving DecidableEq, Repr

/-- Embeds teams.get(team_no, ...): a missing team number key, or a missing
teamANo/teamBNo field, falls back to the default name. The list is reversed
before lookup because the dict comprehension keeps the last entry for a
duplicated team number. -/
def teamName (teams : List (Int × String)) (no : Option Int) : String :=
  match no with
  | none => "N/A"
  | some n => (teams.reverse.lookup n).getD ("N/A")

/-- Embeds the uid construction at line 183: it uses only the competition
slug and the match identifier, never the match time. -/
def mkUid (slug : String) (matchNo : Int) : String :=
  "volleyballworld-" ++ slug ++ "-" ++ toString matchNo

/-- Embeds the body of the per-match loop of process_api_response (lines
159-195): a record with no matchDateUtc is skipped; otherwise the event is
built with end = start + 2 hours and the stable uid. -/
def processMatch (teams : List (Int × String)) (leagueType slug : String)
    (m : MatchRecord) : Option EventData :=
  match m.matchDateUtc with
  | none => none
  | some t =>
    some { summary := teamName teams m.teamANo ++ " x " ++ teamName teams m.teamBNo
                        ++ " - " ++ leagueType
           dtstart := { wall := t, tz := some 0 }
           dtend := { wall := t + 120, tz := some 0 }
           location := m.city.getD ("Local Desconhecido")
           description := leagueType ++ " - Match ID: " ++ toString m.matchNo
           uid := mkUid slug m.matchNo }

/-- Embeds process_api_response (lines 148-196): nothing for a missing body
or a missing matches key, otherwise each match record is processed and the
skipped ones are dropped. -/
def process_api_response (apiData : Option ApiData) (leagueType slug : String) :
    List EventData :=
  match apiData with
  | none => []
  | some d =>
    match d.matchList with
    | none => []
    | some ms => ms.filterMap (processMatch d.allTeams leagueType slug)

/-- The VEVENT components serialized by generate_ics_file (lines 212-221):
one component per event, fields copied over, uid always present. -/
def generate_ics_content (events : List EventData) : List VEvent :=
  events.map (fun e =>
    { summary := e.summary, dtstart := e.dtstart, dtend := e.dtend,
      location := e.location, description := e.description, uid := some e.uid })

/-- Embeds generate_ics_file (lines 199-226). The open call at line 224 uses
the free name filepath, which Python resolves to the module-level variable
bound in the main block; the filename parameter is never read in the body.
The binding state of that global is passed explicitly: when it is unbound the
call raises NameError, otherwise the file is written at the global path and
the written path and content are returned. -/
def generate_ics_file (events : List EventData) (filename : String)
    (globalFilepath : Option String) : Except String (String × ICSFile) :=
  match globalFilepath with
  | none => Except.error ("NameError")
  | some fp => Except.ok (fp, ICSFile.parsed (generate_ics_content events))

/-- Embeds the 7-day chunking loop (fetch_matches.py lines 353-359): take
the head of the remaining dates as the window start, end the window 6 days
later, keep only the dates strictly after the window end, repeat. -/
def fetchRanges : List Int → List (Int × Int)
  | [] => []
  | d :: ds =>
    (d, d + 6) :: fetchRanges ((d :: ds).filter (fun x => decide (d + 6 < x)))
termination_by l => l.length
decreasing_by
  simp only [List.filter_cons]
  rw [if_neg (by simp only [decide_eq_true_eq]; omega)]
  simp only [List.length_cons]
  exact Nat.lt_succ_of_le (List.length_filter_le _ _)

/-- Embeds the match-day filter (lines 337-341): when the existing calendar
has a latest start, only the match days whose date is strictly after the
date of that start survive; with no latest start the list is untouched. -/
def filterMatchDays (maxCalDate : Option PyDateTime) (days : List Int) : List Int :=
  match maxCalDate with
  | none => days
  | some m => days.filter (fun d => decide (dateOf m < d))

/-- Observable outcome of one competition iteration of the main loop: the
date ranges for which a schedule fetch was issued, and the content written
to the calendar file (none when no write happened). -/
structure RunResult where
  fetchedRanges : List (Int × Int)
  wrote : Option (List EventData)
deriving DecidableEq, Repr

/-- Embeds the per-competition body of the main loop (lines 307-414), after
the match-day index has been fetched: read the latest date of the existing
calendar, filter the match days, stop when none remain (lines 343-345),
otherwise sort, chunk into weekly ranges, fetch each range through the api
oracle, merge with the existing events, and write unless the merged list is
empty and a new event was counted or no file existed (line 408). -/
def runCompetition (localOffset : Int) (file : ICSFile) (allMatchDays : List Int)
    (api : Int × Int → Option ApiData) (leagueName slug : String) : RunResult :=
  let maxCal := (get_calendar_date_range localOffset file).2
  let days := filterMatchDays maxCal allMatchDays
  if days = [] then { fetchedRanges := [], wrote := none }
  else
    let sortedDays := List.insertionSort (· ≤ ·) days
    let ranges := fetchRanges sortedDays
    let fetched := ranges.foldr
      (fun r acc => process_api_response (api r) leagueName slug ++ acc) []
    let existing := readExisting file
    let merged := mergeEvents existing fetched
    if merged.1 ≠ [] ∨ (merged.2 = 0 ∧ file ≠ ICSFile.absent) then
      { fetchedRanges := ranges, wrote := some merged.1 }
    else
      { fetchedRanges := ranges, wrote := none }

/-- The maximum of a list of instants, none for the empty list; this is the
specification-side notion of the latest written start instant. -/
def maxInstant : List Int → Option Int
  | [] => none
  | x :: xs => some (xs.foldl max x)

/-- A concrete fetched event (uid volleyballworld-x-1), used as existing
event in the merge examples. -/
def evA : EventData :=
  { summary := "s1", dtstart := { wall := 0, tz := some 0 },
    dtend := { wall := 120, tz := some 0 }, location := "l1",
    description := "d1", uid := "volleyballworld-x-1" }

/-- A second concrete event sharing the uid of evA but differing elsewhere. -/
def evB : EventData :=
  { summary := "s2", dtstart := { wall := 500, tz := some 0 },
    dtend := { wall := 620, tz := some 0 }, location := "l2",
    description := "d2", uid := "volleyballworld-x-1" }

/-- A concrete event with an aware start, used in the round-trip witness. -/
def evC : EventData :=
  { summary := "s3", dtstart := { wall := 100, tz := some 0 },
    dtend := { wall := 220, tz := some 0 }, location := "l3",
    description := "d3", uid := "volleyballworld-y-2" }

/-- An api oracle with every fetch failing (fetch_with_retries exhausted). -/
def apiNone : Int × Int → Option ApiData := fun _ => none

/-- A concrete existing calendar file whose single event starts on day 20218
(2025-05-10) at 00:00 UTC. -/
def calMay10 : ICSFile :=
  ICSFile.parsed
    [{ summary := "s", dtstart := { wall := 20218 * 1440, tz := some 0 },
       dtend := { wall := 20218 * 1440 + 120, tz := some 0 }, location := "l",
       description := "d", uid := some "u" }]

/-- A concrete match record with a timestamp, and the event it produces. -/
def mRec : MatchRecord :=
  { matchNo := 7, teamANo := none, teamBNo := none,
    matchDateUtc := some 1000, city := none }

/-- A concrete api response containing only mRec. -/
def apiA : ApiData := { matchList := some [mRec], allTeams := [] }

/-- The event produced from mRec by process_api_response. -/
def evD : EventData :=
  { summary := "N/A x N/A - L", dtstart := { wall := 1000, tz := some 0 },
    dtend := { wall := 1120, tz := some 0 }, location := "Local Desconhecido",
    description := "L - Match ID: 7", uid := "volleyballworld-s-7" }

/-- C3: delta filtering is strict. Membership in the filtered list requires
the day to be strictly after the date of the latest existing start; with the
latest start on 2025-05-10 (day 20218) and match days 2025-05-05 (20213) and
2025-05-12 (20220), exactly day 20220 survives. -/
theorem filterMatchDays_strict :
    (∀ (m : PyDateTime) (days : List Int) (d : Int),
        d ∈ filterMatchDays (some m) days ↔ d ∈ days ∧ dateOf m < d) ∧
    filterMatchDays (some { wall := 20218 * 1440 + 17 * 60, tz := some 0 })
        [20213, 20220] = [20220] := by
  constructor
  · intro m days d
    simp [filterMatchDays, List.mem_filter]
  · decide

/-- C5 counterexample: with a system local timezone one hour east of UTC, a
naive timestamp is not treated as UTC by the reader normalization: the code
shifts its wall clock by the local offset while the spec reading keeps it. -/
theorem normalizeStart_naive_not_utc :
    normalizeStart 60 { wall := 0, tz := none }
      ≠ normalizeStartSpec { wall := 0, tz := none } ∧
    normalizeStart 60 { wall := 0, tz := none } = { wall := -60, tz := some 0 } ∧
    normalizeStartSpec { wall := 0, tz := none } = { wall := 0, tz := some 0 } := by
  refine ⟨?_, rfl, rfl⟩
  decide

/-- C5 (amended): before computing the latest start instant every parsed
start is made timezone-aware: a naive timestamp is interpreted as system
local time and converted to UTC, and an already-aware timestamp is left
unchanged. -/
theorem normalizeStart_spec (localOffset : Int) (d : PyDateTime) :
    (normalizeStart localOffset d).tz.isSome = true ∧
    (d.tz = none →
      normalizeStart localOffset d = { wall := d.wall - localOffset, tz := some 0 }) ∧
    (∀ o, d.tz = some o → normalizeStart localOffset d = d) := by
  obtain ⟨w, _ | o⟩ := d <;>
    simp [normalizeStart, astimezoneUtc]

/-- Witness for normalizeStart_spec at a concrete naive timestamp. -/
theorem normalizeStart_spec_witness :
    (normalizeStart 60 { wall := 0, tz := none }).tz.isSome = true ∧
    normalizeStart 60 { wall := 0, tz := none } = { wall := 0 - 60, tz := some 0 } :=
  ⟨(normalizeStart_spec 60 { wall := 0, tz := none }).1,
   (normalizeStart_spec 60 { wall := 0, tz := none }).2.1 rfl⟩

/-- C10: generate_ics_file writes to the module-level filepath variable and
ignores its filename parameter; with the global bound to g the write goes to
g whatever filename says, and with the global unbound the call raises
NameError instead of writing. -/
theorem generate_ics_file_global (events : List EventData) (filename g : String) :
    generate_ics_file events filename (some g)
      = Except.ok (g, ICSFile.parsed (generate_ics_content events)) ∧
    generate_ics_file events filename none = Except.error ("NameError") ∧
    (∀ other : String,
      generate_ics_file events filename (some g)
        = generate_ics_file events other (some g)) := by
  exact ⟨rfl, rfl, fun _ => rfl⟩

/-- C4: when no match day survives the filter against the latest date of the
existing calendar, the competition run issues no schedule fetch and writes
nothing. -/
theorem upToDate_shortCircuit (localOffset : Int) (file : ICSFile)
    (allMatchDays : List Int) (api : Int × Int → Option ApiData)
    (leagueName slug : String)
    (h : filterMatchDays (get_calendar_date_range localOffset file).2 allMatchDays = []) :
    runCompetition localOffset file allMatchDays api leagueName slug
      = { fetchedRanges := [], wrote := none } := by
  simp only [runCompetition, h]
  simp

/-- Witness for upToDate_shortCircuit: a calendar up to 2025-05-10 and a
single older match day 2025-05-05. -/
theorem upToDate_shortCircuit_witness :
    runCompetition 0 calMay10 [20213] apiNone ("L") ("s")
      = { fetchedRanges := [], wrote := none } :=
  upToDate_shortCircuit 0 calMay10 [20213] apiNone ("L") ("s") (by decide)

/-- Unfolding lemma: the chunking loop stops on an empty date list. -/
theorem fetchRanges_nil : fetchRanges [] = [] := by
  rw [fetchRanges]

/-- Unfolding lemma: one iteration of the chunking loop. -/
theorem fetchRanges_cons (d : Int) (ds : List Int) :
    fetchRanges (d :: ds)
      = (d, d + 6) :: fetchRanges ((d :: ds).filter (fun x => decide (d + 6 < x))) := by
  rw [fetchRanges]

/-- Every produced window starts at one of the input dates and spans exactly
6 days beyond its start. -/
theorem mem_fetchRanges_start :
    ∀ (l : List Int) (r : Int × Int), r ∈ fetchRanges l → r.1 ∈ l ∧ r.2 = r.1 + 6 := by
  intro l
  induction l using fetchRanges.induct with
  | case1 =>
    intro r h
    rw [fetchRanges_nil] at h
    simp at h
  | case2 d ds ih =>
    intro r h
    rw [fetchRanges_cons] at h
    rcases List.mem_cons.mp h with h0 | h1
    · subst h0
      exact ⟨List.mem_cons_self _ _, rfl⟩
    · obtain ⟨h2, h3⟩ := ih r h1
      exact ⟨(List.mem_filter.mp h2).1, h3⟩

/-- Every window produced from a list whose elements all exceed c starts
strictly above c. -/
theorem fetchRanges_start_gt (c : Int) (l : List Int) (hl : ∀ x ∈ l, c < x) :
    ∀ r ∈ fetchRanges l, c < r.1 := by
  intro r hr
  exact hl r.1 (mem_fetchRanges_start l r hr).1

/-- C9: on a sorted date list the produced windows are pairwise disjoint with
strictly increasing starts (each later window starts strictly after the
earlier window ends), and every input date lies inside exactly one window. -/
theorem fetchRanges_invariants :
    ∀ (l : List Int), List.Sorted (· ≤ ·) l →
      List.Pairwise (fun a b : Int × Int => a.1 < b.1 ∧ a.2 < b.1) (fetchRanges l) ∧
      ∀ x ∈ l, (fetchRanges l).countP (fun r => decide (r.1 ≤ x ∧ x ≤ r.2)) = 1 := by
  intro l
  induction l using fetchRanges.induct with
  | case1 =>
    intro _
    rw [fetchRanges_nil]
    simp
  | case2 d ds ih =>
    intro hs
    have hmin : ∀ x ∈ d :: ds, d ≤ x := by
      intro x hx
      rcases List.mem_cons.mp hx with h0 | h1
      · exact le_of_eq h0.symm
      · exact (List.sorted_cons.mp hs).1 x h1
    have hsf : List.Sorted (· ≤ ·) ((d :: ds).filter (fun x => decide (d + 6 < x))) :=
      hs.filter _
    obtain ⟨ihP, ihC⟩ := ih hsf
    have hgt : ∀ r ∈ fetchRanges ((d :: ds).filter (fun x => decide (d + 6 < x))),
        d + 6 < r.1 := by
      apply fetchRanges_start_gt
      intro x hx
      have := (List.mem_filter.mp hx).2
      simpa using this
    constructor
    · rw [fetchRanges_cons]
      refine List.Pairwise.cons ?_ ihP
      intro r hr
      have h6 := hgt r hr
      exact ⟨by omega, h6⟩
    · intro x hx
      rw [fetchRanges_cons, List.countP_cons]
      by_cases hcase : x ≤ d + 6
      · have hdx : d ≤ x := hmin x hx
        have hzero :
            (fetchRanges ((d :: ds).filter (fun x => decide (d + 6 < x)))).countP
              (fun r => decide (r.1 ≤ x ∧ x ≤ r.2)) = 0 := by
          apply List.countP_eq_zero.mpr
          intro r hr
          have h6 := hgt r hr
          simp only [decide_eq_true_eq, not_and]
          intro h7
          omega
        rw [hzero]
        have hp : (decide ((d, d + 6).1 ≤ x ∧ x ≤ (d, d + 6).2)) = true := by
          simp only [decide_eq_true_eq]
          exact ⟨hdx, hcase⟩
        rw [hp]
        simp
      · have hxf : x ∈ (d :: ds).filter (fun x => decide (d + 6 < x)) := by
          apply List.mem_filter.mpr
          refine ⟨hx, ?_⟩
          simp only [decide_eq_true_eq]
          omega
        have hone := ihC x hxf
        rw [hone]
        have hp : (decide ((d, d + 6).1 ≤ x ∧ x ≤ (d, d + 6).2)) = false := by
          simp only [decide_eq_false_iff_not, not_and]
          intro h7
          omega
        rw [hp]
        simp

/-- Witness for fetchRanges_invariants on the dates 0, 2, 10: the windows
are pairwise disjoint and the date 10 is covered by exactly one window. -/
theorem fetchRanges_invariants_witness :
    List.Pairwise (fun a b : Int × Int => a.1 < b.1 ∧ a.2 < b.1) (fetchRanges [0, 2, 10]) ∧
    (fetchRanges [0, 2, 10]).countP (fun r => decide (r.1 ≤ 10 ∧ 10 ≤ r.2)) = 1 :=
  ⟨(fetchRanges_invariants [0, 2, 10] (by decide)).1,
   (fetchRanges_invariants [0, 2, 10] (by decide)).2 10 (by decide)⟩

/-- C2: the chunking loop is the described greedy partition: on a sorted
nonempty list it opens a window at the earliest date d, closes it at d + 6,
drops every remaining date inside the window and recurses; on the match days
D, D + 2, D + 10 it yields exactly the windows (D, D + 6) and
(D + 10, D + 16). -/
theorem fetchRanges_greedy :
    (∀ (d : Int) (ds : List Int), List.Sorted (· ≤ ·) (d :: ds) →
        fetchRanges (d :: ds)
          = (d, d + 6)
              :: fetchRanges ((d :: ds).filter (fun x => decide (x < d ∨ d + 6 < x)))) ∧
    (∀ D : Int, fetchRanges [D, D + 2, D + 10] = [(D, D + 6), (D + 10, D + 16)]) := by
  constructor
  · intro d ds hs
    rw [fetchRanges_cons]
    have hfilter : (d :: ds).filter (fun x => decide (d + 6 < x))
        = (d :: ds).filter (fun x => decide (x < d ∨ d + 6 < x)) := by
      apply List.filter_congr
      intro x hx
      have hdx : d ≤ x := by
        rcases List.mem_cons.mp hx with h0 | h1
        · exact le_of_eq h0.symm
        · exact (List.sorted_cons.mp hs).1 x h1
      simp only [decide_eq_decide]
      constructor
      · intro h
        exact Or.inr h
      · intro h
        rcases h with h | h
        · omega
        · exact h
    rw [hfilter]
  · intro D
    rw [fetchRanges_cons]
    have h1 : ([D, D + 2, D + 10].filter (fun x => decide (D + 6 < x))) = [D + 10] := by
      have e1 : (decide (D + 6 < D)) = false := by
        simp only [decide_eq_false_iff_not]
        omega
      have e2 : (decide (D + 6 < D + 2)) = false := by
        simp only [decide_eq_false_iff_not]
        omega
      have e3 : (decide (D + 6 < D + 10)) = true := by
        simp only [decide_eq_true_eq]
        omega
      simp [List.filter_cons, e1, e2, e3]
    rw [h1, fetchRanges_cons]
    have h2 : ([D + 10].filter (fun x => decide (D + 10 + 6 < x))) = [] := by
      have e4 : (decide (D + 10 + 6 < D + 10)) = false := by
        simp only [decide_eq_false_iff_not]
        omega
      simp [List.filter_cons, e4]
    rw [h2, fetchRanges_nil]
    have h3 : D + 10 + 6 = D + 16 := by omega
    rw [h3]

/-- Witness for fetchRanges_greedy: one greedy step on the sorted list
containing 0 and 3. -/
theorem fetchRanges_greedy_witness :
    fetchRanges [0, 3]
      = (0, 0 + 6) :: fetchRanges ([0, 3].filter (fun x => decide (x < 0 ∨ 0 + 6 < x))) :=
  fetchRanges_greedy.1 0 [3] (by decide)

/-- The merge fold appends exactly the fetched events whose uid is not among
the given uids, counting them. -/
theorem mergeEvents_loop (uids : List String) :
    ∀ (N : List EventData) (acc : List EventData) (n : Nat),
      N.foldl (fun acc e => if e.uid ∈ uids then acc else (acc.1 ++ [e], acc.2 + 1)) (acc, n)
        = (acc ++ N.filter (fun e => decide (e.uid ∉ uids)),
           n + (N.filter (fun e => decide (e.uid ∉ uids))).length) := by
  intro N
  induction N with
  | nil =>
    intro acc n
    simp
  | cons e es ih =>
    intro acc n
    simp only [List.foldl_cons, List.filter_cons]
    by_cases h : e.uid ∈ uids
    · rw [if_pos h]
      have hd : (decide (e.uid ∉ uids)) = false := by
        simp [h]
      rw [hd]
      simp only [Bool.false_eq_true, if_false]
      exact ih acc n
    · rw [if_neg h]
      have hd : (decide (e.uid ∉ uids)) = true := by
        simp [h]
      rw [hd]
      simp only [if_true]
      rw [ih (acc ++ [e]) (n + 1)]
      simp only [Prod.mk.injEq, List.append_assoc, List.singleton_append, List.length_cons]
      exact ⟨trivial, by omega⟩

/-- Closed form of mergeEvents: the existing events followed by the fetched
events whose uid is not an existing uid, together with their number. -/
theorem mergeEvents_eq (E N : List EventData) :
    mergeEvents E N
      = (E ++ N.filter (fun e => decide (e.uid ∉ E.map EventData.uid)),
         (N.filter (fun e => decide (e.uid ∉ E.map EventData.uid))).length) := by
  unfold mergeEvents
  rw [mergeEvents_loop]
  simp

/-- In a list whose uids are pairwise distinct, looking an element up by its
uid finds exactly that element. -/
theorem find_uid_of_nodup :
    ∀ (E : List EventData), (E.map EventData.uid).Nodup →
      ∀ e ∈ E, E.find? (fun m => m.uid == e.uid) = some e := by
  intro E
  induction E with
  | nil =>
    intro _ e he
    simp at he
  | cons a as ih =>
    intro hnd e he
    rw [List.map_cons] at hnd
    have hnd2 := List.nodup_cons.mp hnd
    rcases List.mem_cons.mp he with h0 | h1
    · subst h0
      rw [List.find?_cons_of_pos _ (by simp)]
    · have hne : a.uid ≠ e.uid := by
        intro heq
        apply hnd2.1
        rw [heq]
        exact List.mem_map_of_mem EventData.uid h1
      rw [List.find?_cons_of_neg _ (by simp [hne])]
      exact ih hnd2.2 e h1

/-- A successful find in the left part of an append stays successful. -/
theorem find_some_append {p : EventData → Bool} :
    ∀ (l₁ l₂ : List EventData) (e : EventData),
      l₁.find? p = some e → (l₁ ++ l₂).find? p = some e := by
  intro l₁
  induction l₁ with
  | nil =>
    intro l₂ e h
    simp [List.find?] at h
  | cons a as ih =>
    intro l₂ e h
    simp only [List.find?] at h
    simp only [List.cons_append, List.find?]
    cases hp : p a with
    | true =>
      rw [hp] at h
      simpa using h
    | false =>
      rw [hp] at h
      exact ih l₂ e h

/-- C1 counterexample: two fetched events sharing one fresh identifier are
both appended by the merge loop, so the merged output carries a duplicated
identifier; the claim that no identifier ever appears twice fails. -/
theorem merge_duplicate_uid_counterexample :
    evA.uid = evB.uid ∧ evA ≠ evB ∧
    (mergeEvents [] [evA, evB]).1 = [evA, evB] ∧
    ¬ ((mergeEvents [] [evA, evB]).1.map EventData.uid).Nodup := by
  refine ⟨rfl, by decide, rfl, ?_⟩
  decide

/-- C1 (amended): for an existing mapping with pairwise distinct identifiers
and any fetched sequence, the merged output is at least as large as the
existing collection and looking up any existing identifier yields exactly
the existing version (the new copy is discarded); and the output has no
duplicated identifier provided the fetched events carrying fresh identifiers
have pairwise distinct identifiers — when several fetched events share one
fresh identifier all of them are kept, as the counterexample shows. -/
theorem merge_preserves_existing (E N : List EventData)
    (hE : (E.map EventData.uid).Nodup) :
    E.length ≤ (mergeEvents E N).1.length ∧
    (∀ e ∈ E, (mergeEvents E N).1.find? (fun m => m.uid == e.uid) = some e) ∧
    (((N.filter (fun e => decide (e.uid ∉ E.map EventData.uid))).map
        EventData.uid).Nodup →
      ((mergeEvents E N).1.map EventData.uid).Nodup) := by
  rw [mergeEvents_eq]
  refine ⟨?_, ?_, ?_⟩
  · simp
  · intro e he
    exact find_some_append E _ e (find_uid_of_nodup E hE e he)
  · intro hN
    simp only [List.map_append]
    rw [List.nodup_append]
    refine ⟨hE, hN, ?_⟩
    intro u hu1 hu2
    obtain ⟨f, hf, rfl⟩ := List.mem_map.mp hu2
    have hfresh := (List.mem_filter.mp hf).2
    simp only [decide_eq_true_eq] at hfresh
    exact hfresh hu1

/-- Witness for merge_preserves_existing: merging one existing event with a
fetched duplicate of its identifier keeps the existing version only. -/
theorem merge_preserves_existing_witness :
    (mergeEvents [evA] [evB]).1.find? (fun m => m.uid == evA.uid) = some evA ∧
    ((mergeEvents [evA] [evB]).1.map EventData.uid).Nodup :=
  ⟨(merge_preserves_existing [evA] [evB] (by decide)).2.1 evA (by decide),
   (merge_preserves_existing [evA] [evB] (by decide)).2.2 (by decide)⟩

/-- The reader normalization leaves an already-aware start unchanged. -/
theorem normalizeStart_aware (localOffset : Int) (d : PyDateTime) (h : d.tz ≠ none) :
    normalizeStart localOffset d = d := by
  unfold normalizeStart
  rw [if_neg h]

/-- The reader normalization is the identity on a list of aware starts. -/
theorem map_normalizeStart_id (localOffset : Int) :
    ∀ (l : List PyDateTime), (∀ s ∈ l, s.tz ≠ none) →
      l.map (normalizeStart localOffset) = l := by
  intro l
  induction l with
  | nil =>
    intro _
    rfl
  | cons s ss ih =>
    intro h
    rw [List.map_cons, normalizeStart_aware _ s (h s (List.mem_cons_self _ _)),
        ih (fun x hx => h x (List.mem_cons_of_mem _ hx))]

/-- The instant of the running Python max is the max of the instants. -/
theorem pickMax_instant :
    ∀ (xs : List PyDateTime) (x : PyDateTime),
      awareInstant (xs.foldl (fun a b => if awareInstant a < awareInstant b then b else a) x)
        = (xs.map awareInstant).foldl max (awareInstant x) := by
  intro xs
  induction xs with
  | nil =>
    intro x
    rfl
  | cons b bs ih =>
    intro x
    simp only [List.foldl_cons, List.map_cons]
    rw [ih]
    by_cases h : awareInstant x < awareInstant b
    · rw [if_pos h, max_eq_right (le_of_lt h)]
    · rw [if_neg h, max_eq_left (le_of_not_lt h)]

/-- Reading back the components written by the generator recovers exactly
the written events, provided every written uid is nonempty. -/
theorem readExisting_roundtrip :
    ∀ (events : List EventData), (∀ e ∈ events, e.uid ≠ "") →
      readExisting (ICSFile.parsed (generate_ics_content events)) = events := by
  intro events
  induction events with
  | nil =>
    intro _
    rfl
  | cons e es ih =>
    intro h
    have he : e.uid ≠ "" := h e (List.mem_cons_self _ _)
    have hes := ih (fun x hx => h x (List.mem_cons_of_mem _ hx))
    simp only [readExisting, generate_ics_content, List.map_cons, List.filterMap_cons] at hes ⊢
    rw [if_neg he]
    rw [hes]

/-- C6: writing an event collection (nonempty uids, aware starts, as the
data model prescribes) and reading the file back yields exactly the written
identifiers, and a latest start whose instant is the maximum of the written
start instants (both none exactly when the collection is empty). -/
theorem write_read_roundTrip (localOffset : Int) (events : List EventData)
    (huid : ∀ e ∈ events, e.uid ≠ "")
    (haware : ∀ e ∈ events, e.dtstart.tz ≠ none) :
    (readExisting (ICSFile.parsed (generate_ics_content events))).map EventData.uid
      = events.map EventData.uid ∧
    (get_calendar_date_range localOffset (ICSFile.parsed (generate_ics_content events))).2.map
        awareInstant
      = maxInstant (events.map (fun e => awareInstant e.dtstart)) := by
  constructor
  · rw [readExisting_roundtrip events huid]
  · have hstarts : (generate_ics_content events).map VEvent.dtstart
        = events.map EventData.dtstart := by
      simp [generate_ics_content, List.map_map]
    simp only [get_calendar_date_range]
    rw [hstarts]
    rcases events with _ | ⟨e, es⟩
    · simp [maxInstant]
    · have hne : ((e :: es).map EventData.dtstart) = e.dtstart :: es.map EventData.dtstart := rfl
      rw [hne]
      rw [if_neg (by simp)]
      have haware2 : ∀ s ∈ e.dtstart :: es.map EventData.dtstart, s.tz ≠ none := by
        intro s hs
        rcases List.mem_cons.mp hs with h0 | h1
        · rw [h0]
          exact haware e (List.mem_cons_self _ _)
        · obtain ⟨a, ha, rfl⟩ := List.mem_map.mp h1
          exact haware a (List.mem_cons_of_mem _ ha)
      rw [show (e.dtstart :: es.map EventData.dtstart) = ((e :: es).map EventData.dtstart) from rfl]
      rw [map_normalizeStart_id localOffset _ (by rw [← hne] at haware2; exact haware2)]
      simp only [pyMaxDT, List.map_cons, Option.map_some', maxInstant]
      rw [pickMax_instant]
      rw [List.map_map]
      rfl

/-- Witness for write_read_roundTrip at the single aware event evC. -/
theorem write_read_roundTrip_witness :
    (readExisting (ICSFile.parsed (generate_ics_content [evC]))).map EventData.uid
      = [evC].map EventData.uid ∧
    (get_calendar_date_range 0 (ICSFile.parsed (generate_ics_content [evC]))).2.map awareInstant
      = maxInstant ([evC].map (fun e => awareInstant e.dtstart)) :=
  write_read_roundTrip 0 [evC] (by decide) (by decide)

/-- C7: the existing-calendar reader is never fatal: an absent file yields an
empty event set and no latest date; an unreadable file yields the same empty
result with a warning; and the competition run on an unreadable existing
file issues exactly the fetches it would issue with no existing file at all
(it re-fetches everything instead of aborting). -/
theorem reader_never_fatal :
    (∀ localOffset : Int,
        get_calendar_date_range localOffset ICSFile.absent = (none, none)) ∧
    readExisting ICSFile.absent = [] ∧
    (∀ localOffset : Int,
        get_calendar_date_range localOffset ICSFile.malformed = (none, none)) ∧
    readExisting ICSFile.malformed = [] ∧
    readerWarns ICSFile.malformed = true ∧
    (∀ (localOffset : Int) (days : List Int) (api : Int × Int → Option ApiData)
        (leagueName slug : String),
      (runCompetition localOffset ICSFile.malformed days api leagueName slug).fetchedRanges
        = (runCompetition localOffset ICSFile.absent days api leagueName slug).fetchedRanges) := by
  refine ⟨fun _ => rfl, rfl, fun _ => rfl, rfl, rfl, ?_⟩
  intro localOffset days api leagueName slug
  by_cases h : filterMatchDays none days = []
  · simp [runCompetition, get_calendar_date_range, h]
  · simp only [runCompetition, get_calendar_date_range, readExisting]
    rw [if_neg h, if_neg h]
    rw [apply_ite RunResult.fetchedRanges, apply_ite RunResult.fetchedRanges]
    simp

/-- C8: every event produced by process_api_response ends exactly 2 hours
(120 minutes) after it starts and carries the uid built from the slug and
the match number of some processed record (the uid constructor takes no time
argument); changing only the timestamp of a record never changes the
produced uid; and a record with no timestamp is dropped while the rest of
the batch is processed unchanged. -/
theorem process_api_spec :
    (∀ (a : ApiData) (leagueType slug : String) (e : EventData),
        e ∈ process_api_response (some a) leagueType slug →
          awareInstant e.dtend = awareInstant e.dtstart + 120 ∧
          e.dtend.wall = e.dtstart.wall + 120 ∧
          ∃ m ∈ a.matchList.getD [], m.matchDateUtc.isSome ∧ e.uid = mkUid slug m.matchNo) ∧
    (∀ (teams : List (Int × String)) (leagueType slug : String) (m : MatchRecord)
        (t u : Int),
        (processMatch teams leagueType slug { m with matchDateUtc := some t }).map
            EventData.uid
          = (processMatch teams leagueType slug { m with matchDateUtc := some u }).map
              EventData.uid) ∧
    (∀ (ms₁ ms₂ : List MatchRecord) (teams : List (Int × String))
        (leagueType slug : String) (bad : MatchRecord),
        bad.matchDateUtc = none →
        (ms₁ ++ bad :: ms₂).filterMap (processMatch teams leagueType slug)
          = (ms₁ ++ ms₂).filterMap (processMatch teams leagueType slug)) := by
  refine ⟨?_, ?_, ?_⟩
  · intro a leagueType slug e he
    obtain ⟨ml, teams⟩ := a
    cases ml with
    | none =>
      simp [process_api_response] at he
    | some ms =>
      simp only [process_api_response] at he
      obtain ⟨m, hm, hpm⟩ := List.mem_filterMap.mp he
      unfold processMatch at hpm
      cases ht : m.matchDateUtc with
      | none =>
        rw [ht] at hpm
        simp at hpm
      | some t =>
        rw [ht] at hpm
        have he2 := Option.some.inj hpm
        subst he2
        refine ⟨?_, rfl, m, ?_, ?_, rfl⟩
        · simp [awareInstant]
        · simpa using hm
        · rw [ht]
          rfl
  · intro teams leagueType slug m t u
    obtain ⟨no, a1, b1, _, c1⟩ := m
    simp [processMatch]
  · intro ms₁ ms₂ teams leagueType slug bad h
    simp [List.filterMap_append, List.filterMap_cons, processMatch, h]

/-- Witness for process_api_spec at the concrete record mRec: the produced
event evD ends 120 minutes after it starts. -/
theorem process_api_spec_witness :
    awareInstant evD.dtend = awareInstant evD.dtstart + 120 ∧
    evD.dtend.wall = evD.dtstart.wall + 120 :=
  ⟨(process_api_spec.1 apiA ("L") ("s") evD (by decide)).1,
   (process_api_spec.1 apiA ("L") ("s") evD (by decide)).2.1⟩
